import Mathlib

/-!
Verification of the Moodle forum scraper (`src/forum_scraper.py`).

The scraper's external collaborators are modelled as data:

* the markup parser (BeautifulSoup) is modelled by `Page`, a record holding
  the results of the fixed CSS-selector queries the scraper performs —
  `soup.select(".topic .d-flex a.w-100.h-100.d-block")` becomes the list
  `discussionAnchors`, `soup.select("article.forum-post-container")` the list
  `postContainers`, and each `select_one` inside a container an `Option` field;
* the HTTP client (`requests`) is modelled by an oracle
  `net : String → FetchOutcome` mapping a URL to the outcome of a GET;
* `time.sleep(1)` is modelled by counting sleeps;
* the `while True` pagination loop is modelled with explicit fuel — theorems
  quantify over all sufficiently large fuel, which expresses termination.

Element truthiness in the source (`if post_content and header`, `all([...])`,
`if not soup`) is modelled as presence: `select_one` yields `none` or the
element.  Machine-level `requests` exceptions are modelled by the
`transportError` outcome; the only exception the scraper itself can raise
(`urljoin(base, None)` when an anchor has no `href` attribute) is modelled
with `Except`.
-/

namespace ForumScraper

/-- An element as the scraper observes it: the result of
`get_text(strip=True)` on it. -/
structure El where
  textStrip : String
deriving DecidableEq, Repr

/-- A `time` element; `datetime` is its optional `datetime` attribute
(`date.get('datetime', '')` in the source). -/
structure TimeEl where
  datetime : Option String
deriving DecidableEq, Repr

/-- The `header` element of a post container, with the results of the three
`select_one` queries the source performs on it: the title
(`h3[data-region-content="forum-post-core-subject"]`), the author link
(`a[href*="/user/view.php"]`), and the timestamp (`time`). -/
structure HeaderEl where
  title : Option El
  authorLink : Option El
  timeEl : Option TimeEl
deriving DecidableEq, Repr

/-- One `article.forum-post-container` fragment, with the results of
`select_one(".post-content-container")` and `select_one("header")`. -/
structure PostContainer where
  postContent : Option El
  header : Option HeaderEl
deriving DecidableEq, Repr

/-- An anchor matched by the discussion-link selector; `href` is its
optional `href` attribute (`link.get('href')`). -/
structure Anchor where
  href : Option String
  textStrip : String
deriving DecidableEq, Repr

/-- A parsed page, holding the results of the two top-level selector
queries the scraper performs on a document. -/
structure Page where
  discussionAnchors : List Anchor
  postContainers : List PostContainer
deriving DecidableEq, Repr

/-- The `ForumPost` dataclass of the source. -/
structure ForumPost where
  title : String
  content : String
  author : String
  date : String
deriving DecidableEq, Repr

/-- Outcome of one `session.get(url)` call: either a transport-level
`requests.RequestException`, or a response with a final (redirect-resolved)
status code, final URL, and parsed body. -/
inductive FetchOutcome where
  | transportError
  | response (status : Nat) (finalUrl : String) (doc : Page)

/-- Does the character list `s` start with the pattern `pat`?  This models
`str.startswith`. -/
def leadsWith : List Char → List Char → Bool
  | [], _ => true
  | _ :: _, [] => false
  | p :: ps, c :: cs => p == c && leadsWith ps cs

/-- Remove the exact pattern `pat` from the front of `s`, or fail. -/
def dropRun : List Char → List Char → Option (List Char)
  | [], s => some s
  | _ :: _, [] => none
  | p :: ps, c :: cs => if p = c then dropRun ps cs else none

/-- Split `s` at the first occurrence of the contiguous pattern `pat`,
returning the part before it and the part after it. -/
def splitFirstRun (pat : List Char) (s : List Char) : Option (List Char × List Char) :=
  match s with
  | [] => (dropRun pat []).map (fun r => ([], r))
  | c :: cs =>
    match dropRun pat s with
    | some r => some ([], r)
    | none => (splitFirstRun pat cs).map (fun pr => (c :: pr.1, pr.2))

/-- Model of the external `urllib.parse.urljoin` collaborator, restricted to
the URL shapes the scraper encounters: an empty reference yields the base,
an absolute `http(s)` reference replaces the base, a root-relative reference
is resolved against the base's scheme and host, and any other reference
replaces the last path segment of the base. -/
def urljoin (base ref : String) : String :=
  if ref.data.isEmpty then base
  else if leadsWith "http://".data ref.data || leadsWith "https://".data ref.data then ref
  else if base.data.isEmpty then ref
  else if leadsWith "/".data ref.data then
    (match splitFirstRun "://".data base.data with
     | some (scheme, rest) =>
        String.mk (scheme ++ "://".data ++ rest.takeWhile (fun c => c ≠ '/'))
     | none => "") ++ ref
  else
    String.mk (base.data.reverse.dropWhile (fun c => c ≠ '/')).reverse ++ ref

/-- Lower-casing used to model `response.url.lower()`. -/
def lowerAscii (s : String) : String := String.mk (s.data.map Char.toLower)

/-- Does the character list contain `pat` as a contiguous run? -/
def hasRun (pat : List Char) : List Char → Bool
  | [] => leadsWith pat []
  | c :: cs => leadsWith pat (c :: cs) || hasRun pat cs

/-- Model of `"login" in response.url.lower()`. -/
def containsLogin (u : String) : Bool :=
  hasRun "login".data (lowerAscii u).data

/-- Embedding of `MoodleForumScraper.get_page_content`: a transport error is
caught and yields `none`; `raise_for_status` raises (caught, `none`) exactly
for status codes 400–599; a final URL containing "login" (case-insensitive)
yields `none`; otherwise the parsed document is returned. -/
def get_page_content (net : String → FetchOutcome) (url : String) : Option Page :=
  match net url with
  | .transportError => none
  | .response status finalUrl doc =>
    if 400 ≤ status ∧ status < 600 then none
    else if containsLogin finalUrl then none
    else some doc

/-- Loop body of `get_discussion_links` over the selected anchors: each
anchor's `href` is resolved with `urljoin` and appended when non-empty; an
anchor with no `href` attribute makes `urljoin(base, None)` raise a
`TypeError`, modelled as `Except.error`. -/
def gdlLinks (base : String) : List Anchor → Except String (List String)
  | [] => .ok []
  | a :: rest =>
    match a.href with
    | none => .error "TypeError: urljoin with None href"
    | some h =>
      let durl := urljoin base h
      match gdlLinks base rest with
      | .error e => .error e
      | .ok links => .ok (if durl.isEmpty then links else durl :: links)

/-- Embedding of `MoodleForumScraper.get_discussion_links`. -/
def get_discussion_links (base : String) (soup : Page) : Except String (List String) :=
  gdlLinks base soup.discussionAnchors

/-- Per-container body of the extraction loop in
`extract_posts_from_discussion`: the container contributes a `ForumPost`
exactly when `post_content`, `header`, and the header's title, author link
and timestamp are all present; the date falls back to the empty string when
the `datetime` attribute is absent. -/
def extractPostFromContainer (c : PostContainer) : Option ForumPost :=
  match c.postContent, c.header with
  | some pc, some h =>
    match h.title, h.authorLink, h.timeEl with
    | some t, some a, some d =>
      some { title := t.textStrip, content := pc.textStrip,
             author := a.textStrip, date := d.datetime.getD "" }
    | _, _, _ => none
  | _, _ => none

/-- The extraction loop over all selected post containers of a page. -/
def extractPostsList (cs : List PostContainer) : List ForumPost :=
  cs.filterMap extractPostFromContainer

/-- Embedding of `MoodleForumScraper.extract_posts_from_discussion`:
fetch the discussion page (empty result on failure), then run the
extraction loop over its post containers. -/
def extract_posts_from_discussion (net : String → FetchOutcome) (url : String) :
    List ForumPost :=
  match get_page_content net url with
  | none => []
  | some soup => extractPostsList soup.postContainers

/-- The accumulated discussion mapping, in insertion order (a Python `dict`
as an ordered association list). -/
abbrev ScrapeResult := List (String × List ForumPost)

/-- Python `d[k] = v`: overwrite in place when the key exists (keys are
unique in a `dict`, so replacing the first occurrence is the in-place
update), else append at the end. -/
def dictInsert (d : ScrapeResult) (k : String) (v : List ForumPost) : ScrapeResult :=
  match d with
  | [] => [(k, v)]
  | p :: rest => if p.1 = k then (k, v) :: rest else p :: dictInsert rest k v

/-- Lookup in the ordered association list. -/
def dictLookup (d : ScrapeResult) (k : String) : Option (List ForumPost) :=
  match d with
  | [] => none
  | p :: rest => if p.1 = k then some p.2 else dictLookup rest k

/-- The inner `for discussion_url in discussion_links` loop of
`scrape_forum`: visit each link in order, record its posts when non-empty,
and `time.sleep(1)` after every visit regardless of outcome.  Returns the
updated mapping and the number of sleeps performed. -/
def visitDiscussions (net : String → FetchOutcome) :
    List String → ScrapeResult → ScrapeResult × Nat
  | [], acc => (acc, 0)
  | u :: rest, acc =>
    let posts := extract_posts_from_discussion net u
    let acc2 := if posts.isEmpty then acc else dictInsert acc u posts
    let r := visitDiscussions net rest acc2
    (r.1, r.2 + 1)

/-- The index URL built by `scrape_forum` for a page number. -/
def pageUrl (base : String) (page : Nat) : String :=
  base ++ "&page=" ++ toString page

/-- The `while True` pagination loop of `scrape_forum`, with explicit fuel.
Besides the mapping it returns the list of index URLs fetched, in order
(one per index fetch call), and the total number of sleeps.  The loop stops
when the index fetch fails or when no discussion links are found; an
exception from `get_discussion_links` propagates. -/
def scrapeLoop (net : String → FetchOutcome) (base : String) :
    Nat → Nat → ScrapeResult → Except String (ScrapeResult × List String × Nat)
  | 0, _, acc => .ok (acc, [], 0)
  | fuel + 1, page, acc =>
    let url := pageUrl base page
    match get_page_content net url with
    | none => .ok (acc, [url], 0)
    | some soup =>
      match get_discussion_links base soup with
      | .error e => .error e
      | .ok links =>
        if links.isEmpty then .ok (acc, [url], 0)
        else
          let v := visitDiscussions net links acc
          match scrapeLoop net base fuel (page + 1) v.1 with
          | .error e => .error e
          | .ok (d, urls, s) => .ok (d, url :: urls, v.2 + s)

/-- Embedding of `MoodleForumScraper.scrape_forum`: run the pagination loop
from page 0 with an empty mapping. -/
def scrape_forum (net : String → FetchOutcome) (base : String) (fuel : Nat) :
    Except String (ScrapeResult × List String × Nat) :=
  scrapeLoop net base fuel 0 []

/-- The separator line written by `save_to_file`, Python `'='*80`. -/
def sep80 : String := String.mk (List.replicate 80 '=')

/-- The sub-separator line written by `save_to_file`, Python `'-'*40`. -/
def sep40 : String := String.mk (List.replicate 40 '-')

/-- The text `save_to_file` writes for one post. -/
def postBlock (p : ForumPost) : String :=
  "Title: " ++ p.title ++ "\n" ++
  "Author: " ++ p.author ++ "\n" ++
  "Date: " ++ p.date ++ "\n" ++
  "Content:\n" ++ p.content ++ "\n" ++
  "\n" ++ sep40 ++ "\n\n"

/-- The sequence of per-post writes of `save_to_file`, concatenated. -/
def postsText : List ForumPost → String
  | [] => ""
  | p :: ps => postBlock p ++ postsText ps

/-- The text `save_to_file` writes for one discussion. -/
def discussionBlock (url : String) (posts : List ForumPost) : String :=
  "\n" ++ sep80 ++ "\n" ++
  "Discussion URL: " ++ url ++ "\n" ++
  sep80 ++ "\n\n" ++
  postsText posts

/-- Embedding of `MoodleForumScraper.save_to_file`: the full text written to
the output file, one discussion block per mapping entry in order. -/
def save_to_file : ScrapeResult → String
  | [] => ""
  | (url, posts) :: rest => discussionBlock url posts ++ save_to_file rest

/-- The URL-scheme check of the driver's URL-collection loop:
`forum_url.startswith(('http://', 'https://'))`. -/
def isHttpUrl (u : String) : Bool :=
  leadsWith "http://".data u.data || leadsWith "https://".data u.data

/-- Python `all_discussions.update(discussions)`: last write wins per key,
insertion order of fresh keys preserved. -/
def dictUpdate (acc d : ScrapeResult) : ScrapeResult :=
  d.foldl (fun a p => dictInsert a p.1 p.2) acc

/-- The driver's URL-collection loop in `main`, consuming a finite script of
interactive inputs.  `scrapeOf` abstracts constructing a scraper and running
`scrape_forum` on a URL.  Returns the URLs for which a scraper was
constructed and invoked, in order, the merged mapping, and whether the loop
terminated via the empty-input `break` (running out of inputs models
`input()` raising end-of-file, which is not the empty-input exit). -/
def urlLoop (scrapeOf : String → ScrapeResult) :
    List String → ScrapeResult → List String × ScrapeResult × Bool
  | [], acc => ([], acc, false)
  | u :: rest, acc =>
    if u.isEmpty then ([], acc, true)
    else if isHttpUrl u = false then urlLoop scrapeOf rest acc
    else
      let d := scrapeOf u
      let acc2 := if d.isEmpty then acc else dictUpdate acc d
      let r := urlLoop scrapeOf rest acc2
      (u :: r.1, r.2)

/-! ### Helper lemmas about the extraction loop -/

/-- A container is skipped exactly when one of the required elements —
content, header, or (within the header) title, author link, timestamp —
is missing. -/
theorem extractPost_none_iff (c : PostContainer) :
    extractPostFromContainer c = none ↔
      (c.postContent = none ∨ c.header = none ∨
        ∃ hd, c.header = some hd ∧
          (hd.title = none ∨ hd.authorLink = none ∨ hd.timeEl = none)) := by
  obtain ⟨pc, hd⟩ := c
  cases pc with
  | none => simp [extractPostFromContainer]
  | some pcv =>
    cases hd with
    | none => simp [extractPostFromContainer]
    | some h =>
      obtain ⟨t, a, d⟩ := h
      cases t <;> cases a <;> cases d <;> simp [extractPostFromContainer]

/-- The extracted post count plus the number of skipped containers is the
container count: each incomplete container lowers the count by one. -/
theorem extractPostsList_length (cs : List PostContainer) :
    (extractPostsList cs).length
      + cs.countP (fun c => (extractPostFromContainer c).isNone) = cs.length := by
  induction cs with
  | nil => simp [extractPostsList]
  | cons c rest ih =>
    cases h : extractPostFromContainer c <;>
      simp [extractPostsList, List.filterMap_cons, h, List.countP_cons] at ih ⊢ <;>
      omega

/-- C1: on a successfully fetched discussion page, a post container missing
any one of the required elements (content, header, title, author link,
timestamp) is exactly a skipped container; the post count drops by one per
skipped container, removing a skipped container leaves the sibling
containers' extraction unchanged, and every post in the result comes whole
from a fully complete container (no partial record). -/
theorem extract_skips_incomplete
    (net : String → FetchOutcome) (url : String) (soup : Page)
    (h : get_page_content net url = some soup) :
    (extract_posts_from_discussion net url).length
        + soup.postContainers.countP (fun c => (extractPostFromContainer c).isNone)
      = soup.postContainers.length
    ∧ (∀ c : PostContainer, extractPostFromContainer c = none ↔
        (c.postContent = none ∨ c.header = none ∨
          ∃ hd, c.header = some hd ∧
            (hd.title = none ∨ hd.authorLink = none ∨ hd.timeEl = none)))
    ∧ (∀ l1 (c : PostContainer) l2, soup.postContainers = l1 ++ c :: l2 →
        extractPostFromContainer c = none →
        extract_posts_from_discussion net url = extractPostsList (l1 ++ l2))
    ∧ (∀ p ∈ extract_posts_from_discussion net url,
        ∃ c ∈ soup.postContainers, extractPostFromContainer c = some p) := by
  have he : extract_posts_from_discussion net url
      = extractPostsList soup.postContainers := by
    simp [extract_posts_from_discussion, h]
  refine ⟨?_, fun c => extractPost_none_iff c, ?_, ?_⟩
  · rw [he]; exact extractPostsList_length _
  · intro l1 c l2 hsplit hnone
    rw [he, hsplit]
    simp [extractPostsList, List.filterMap_append, List.filterMap_cons, hnone]
  · intro p hp
    rw [he] at hp
    exact List.mem_filterMap.mp hp

/-- Discussion page used to witness C1: three containers, the middle one
with no author link. -/
def c1page : Page :=
  { discussionAnchors := [],
    postContainers :=
      [ ⟨some ⟨"hello"⟩, some ⟨some ⟨"T1"⟩, some ⟨"Alice"⟩, some ⟨some "2024-01-01T10:00:00"⟩⟩⟩,
        ⟨some ⟨"orphan"⟩, some ⟨some ⟨"T2"⟩, none, some ⟨some "2024-01-02T10:00:00"⟩⟩⟩,
        ⟨some ⟨"bye"⟩, some ⟨some ⟨"T3"⟩, some ⟨"Bob"⟩, some ⟨some "2024-01-03T10:00:00"⟩⟩⟩ ] }

/-- Network oracle used to witness C1. -/
def c1net : String → FetchOutcome := fun u =>
  if u = "https://aulas/mod/forum/discuss.php?d=1" then
    .response 200 "https://aulas/mod/forum/discuss.php?d=1" c1page
  else .transportError

/-- Witness for C1 at a concrete page: 3 containers, 1 incomplete. -/
theorem extract_skips_incomplete_witness :
    (extract_posts_from_discussion c1net "https://aulas/mod/forum/discuss.php?d=1").length
        + c1page.postContainers.countP (fun c => (extractPostFromContainer c).isNone)
      = c1page.postContainers.length :=
  (extract_skips_incomplete c1net "https://aulas/mod/forum/discuss.php?d=1" c1page
    (by decide)).1

/-- C3: a parsed index page with zero anchors matching the discussion-link
selector makes `get_discussion_links` return the empty list (an `ok` value,
not a failure), and on such a page the pagination loop of `scrape_forum`
halts for that forum after this one index fetch, returning the accumulated
mapping without an error. -/
theorem empty_links_halts_pagination
    (base : String) (soup : Page) (net : String → FetchOutcome)
    (fuel page : Nat) (acc : ScrapeResult)
    (hanch : soup.discussionAnchors = [])
    (hfetch : get_page_content net (pageUrl base page) = some soup) :
    get_discussion_links base soup = .ok []
    ∧ scrapeLoop net base (fuel + 1) page acc = .ok (acc, [pageUrl base page], 0) := by
  have hlinks : get_discussion_links base soup = Except.ok ([] : List String) := by
    simp [get_discussion_links, hanch, gdlLinks]
  refine ⟨hlinks, ?_⟩
  simp [scrapeLoop, hfetch, hlinks]

/-- Index page with no discussion links, witnessing C3. -/
def c3page : Page := { discussionAnchors := [], postContainers := [] }

/-- Network oracle used to witness C3. -/
def c3net : String → FetchOutcome := fun _ =>
  .response 200 "https://aulas/mod/forum/view.php?id=7&page=0" c3page

/-- Witness for C3: the crawler stops after fetching page 0 and returns the
accumulated (empty) mapping without error. -/
theorem empty_links_halts_pagination_witness :
    scrapeLoop c3net "https://aulas/mod/forum/view.php?id=7" 1 0 []
      = .ok ([], [pageUrl "https://aulas/mod/forum/view.php?id=7" 0], 0) :=
  (empty_links_halts_pagination "https://aulas/mod/forum/view.php?id=7" c3page c3net
    0 0 [] rfl (by decide)).2

/-- C5: a container whose timestamp element is present but has no
`datetime` attribute yields a post whose date is the empty string, and that
post is included in the extraction result; a container whose timestamp
element is absent altogether is skipped and contributes nothing. -/
theorem date_defaults_to_empty
    (pc t a : El) (te : TimeEl) (l1 l2 : List PostContainer)
    (hdt : te.datetime = none) :
    extractPostFromContainer ⟨some pc, some ⟨some t, some a, some te⟩⟩
        = some ⟨t.textStrip, pc.textStrip, a.textStrip, ""⟩
    ∧ (⟨t.textStrip, pc.textStrip, a.textStrip, ""⟩ : ForumPost)
        ∈ extractPostsList (l1 ++ ⟨some pc, some ⟨some t, some a, some te⟩⟩ :: l2)
    ∧ extractPostFromContainer ⟨some pc, some ⟨some t, some a, none⟩⟩ = none
    ∧ extractPostsList (l1 ++ ⟨some pc, some ⟨some t, some a, none⟩⟩ :: l2)
        = extractPostsList (l1 ++ l2) := by
  have h1 : extractPostFromContainer ⟨some pc, some ⟨some t, some a, some te⟩⟩
      = some ⟨t.textStrip, pc.textStrip, a.textStrip, ""⟩ := by
    simp [extractPostFromContainer, hdt]
  refine ⟨h1, ?_, ?_, ?_⟩
  · exact List.mem_filterMap.mpr ⟨_, by simp, h1⟩
  · simp [extractPostFromContainer]
  · simp [extractPostsList, List.filterMap_append, List.filterMap_cons,
      extractPostFromContainer]

/-- Witness for C5 at concrete element values. -/
theorem date_defaults_to_empty_witness :
    extractPostFromContainer ⟨some ⟨"body"⟩, some ⟨some ⟨"T"⟩, some ⟨"Ana"⟩, some ⟨none⟩⟩⟩
      = some ⟨"T", "body", "Ana", ""⟩ :=
  (date_defaults_to_empty ⟨"body"⟩ ⟨"T"⟩ ⟨"Ana"⟩ ⟨none⟩ [] [] rfl).1

/-- C7: `get_discussion_links` is a pure function of the parsed page and the
scraper's base URL: a second call on the same page returns the identical
sequence, and the result depends on nothing of the page beyond the
selector's matches. -/
theorem get_discussion_links_pure (base : String) (soup soup2 : Page)
    (h : soup.discussionAnchors = soup2.discussionAnchors) :
    get_discussion_links base soup = get_discussion_links base soup
    ∧ get_discussion_links base soup = get_discussion_links base soup2 := by
  exact ⟨rfl, by simp [get_discussion_links, h]⟩

/-- Index page witnessing C7. -/
def c7page : Page :=
  { discussionAnchors := [⟨some "https://aulas/mod/forum/discuss.php?d=4", "Topic 4"⟩],
    postContainers := [] }

/-- The same selector matches on a page that differs elsewhere. -/
def c7page2 : Page :=
  { discussionAnchors := [⟨some "https://aulas/mod/forum/discuss.php?d=4", "Topic 4"⟩],
    postContainers := [⟨none, none⟩] }

/-- Witness for C7 at a concrete page. -/
theorem get_discussion_links_pure_witness :
    get_discussion_links "https://aulas" c7page = get_discussion_links "https://aulas" c7page2 :=
  (get_discussion_links_pure "https://aulas" c7page c7page2 rfl).2

/-- C8: a response whose final URL indicates a login surface makes
`get_page_content` return the failure value `none` — the very same value
returned for a transport error and for an HTTP-error status (the 400–599
range that `raise_for_status` rejects), so the three failure causes are
indistinguishable to the caller. -/
theorem login_redirect_same_failure :
    (∀ (net : String → FetchOutcome) (u : String) status finalUrl doc,
        net u = .response status finalUrl doc → containsLogin finalUrl = true →
        get_page_content net u = none)
    ∧ (∀ (net : String → FetchOutcome) (u : String),
        net u = .transportError → get_page_content net u = none)
    ∧ (∀ (net : String → FetchOutcome) (u : String) status finalUrl doc,
        net u = .response status finalUrl doc → 400 ≤ status → status < 600 →
        get_page_content net u = none) := by
  refine ⟨?_, ?_, ?_⟩
  · intro net u s f doc h hl
    by_cases hs : 400 ≤ s ∧ s < 600 <;> simp [get_page_content, h, hs, hl]
  · intro net u h
    simp [get_page_content, h]
  · intro net u s f doc h h4 h6
    simp [get_page_content, h]
    intro hc
    omega

/-- Document body used by the C8 and C9 witnesses. -/
def c8doc : Page := { discussionAnchors := [], postContainers := [] }

/-- Oracle answering with a login redirect. -/
def c8netLogin : String → FetchOutcome := fun _ =>
  .response 200 "https://aulas/login/index.php" c8doc

/-- Oracle answering with a transport error. -/
def c8netTransport : String → FetchOutcome := fun _ => .transportError

/-- Oracle answering 404. -/
def c8netStatus : String → FetchOutcome := fun _ =>
  .response 404 "https://aulas/missing" c8doc

/-- Witness for C8: the three failure causes produce the identical value. -/
theorem login_redirect_same_failure_witness :
    get_page_content c8netLogin "u" = none
    ∧ get_page_content c8netTransport "u" = none
    ∧ get_page_content c8netStatus "u" = none :=
  ⟨login_redirect_same_failure.1 c8netLogin "u" 200 "https://aulas/login/index.php" c8doc
      rfl (by decide),
   login_redirect_same_failure.2.1 c8netTransport "u" rfl,
   login_redirect_same_failure.2.2 c8netStatus "u" 404 "https://aulas/missing" c8doc
      rfl (by decide) (by decide)⟩

/-- C9: `get_page_content` is total at its interface — for every URL and
every outcome of the underlying GET (transport error, HTTP-error status,
login redirect, or a clean response) it returns either `none` or the parsed
page; the case split below covers every constructor of `FetchOutcome`, so
no outcome escapes as an exception. -/
theorem get_page_content_total :
    ∀ (net : String → FetchOutcome) (u : String),
      (net u = .transportError → get_page_content net u = none)
      ∧ (∀ status finalUrl doc, net u = .response status finalUrl doc →
          400 ≤ status → status < 600 → get_page_content net u = none)
      ∧ (∀ status finalUrl doc, net u = .response status finalUrl doc →
          containsLogin finalUrl = true → get_page_content net u = none)
      ∧ (∀ status finalUrl doc, net u = .response status finalUrl doc →
          ¬(400 ≤ status ∧ status < 600) → containsLogin finalUrl = false →
          get_page_content net u = some doc) := by
  intro net u
  refine ⟨fun h => by simp [get_page_content, h], ?_, ?_, ?_⟩
  · intro s f doc h h4 h6
    simp [get_page_content, h]
    intro hc; omega
  · intro s f doc h hl
    by_cases hs : 400 ≤ s ∧ s < 600 <;> simp [get_page_content, h, hs, hl]
  · intro s f doc h hs hl
    simp [get_page_content, h, hs, hl]

/-- Oracle answering a clean forum page, for the C9 witness. -/
def c9netOk : String → FetchOutcome := fun _ =>
  .response 200 "https://aulas/mod/forum/view.php?id=7" c8doc

/-- Witness for C9: a clean response comes back as a parsed page, a
transport error as `none`. -/
theorem get_page_content_total_witness :
    get_page_content c9netOk "u" = some c8doc
    ∧ get_page_content c8netTransport "u2" = none :=
  ⟨(get_page_content_total c9netOk "u").2.2.2 200 "https://aulas/mod/forum/view.php?id=7"
      c8doc rfl (by decide) (by decide),
   (get_page_content_total c8netTransport "u2").1 rfl⟩

/-- C10: in the driver's URL-collection loop, the URLs for which a scraper
is constructed and the crawler invoked are exactly the inputs before the
first empty input that start with the `http` or `https` scheme — an
invalid URL is rejected and the loop re-prompts — and the loop takes its
empty-input exit exactly when some input is the empty string. -/
theorem main_url_loop_rejects_invalid (scrapeOf : String → ScrapeResult)
    (inputs : List String) (acc : ScrapeResult) :
    (urlLoop scrapeOf inputs acc).1
        = (inputs.takeWhile (fun u => !u.isEmpty)).filter isHttpUrl
    ∧ (urlLoop scrapeOf inputs acc).2.2 = inputs.any (fun u => u.isEmpty) := by
  induction inputs generalizing acc with
  | nil => simp [urlLoop]
  | cons u rest ih =>
    by_cases he : u.isEmpty
    · simp [urlLoop, he]
    · by_cases hv : isHttpUrl u
      · simp [urlLoop, he, hv, ih]
      · simp [urlLoop, he, hv, ih]

/-! ### Association-list lemmas for the result mapping -/

/-- Keys of the mapping, in insertion order. -/
def dictKeys (d : ScrapeResult) : List String := d.map Prod.fst

/-- Inserting binds the key. -/
theorem dictLookup_insert_self (d : ScrapeResult) (k : String) (v : List ForumPost) :
    dictLookup (dictInsert d k v) k = some v := by
  induction d with
  | nil => simp [dictInsert, dictLookup]
  | cons p rest ih =>
    by_cases hp : p.1 = k
    · simp [dictInsert, dictLookup, hp]
    · simp [dictInsert, dictLookup, hp, ih]

/-- Inserting one key does not disturb another key's binding. -/
theorem dictLookup_insert_ne (d : ScrapeResult) (k k' : String) (v : List ForumPost)
    (h : k' ≠ k) :
    dictLookup (dictInsert d k v) k' = dictLookup d k' := by
  induction d with
  | nil => simp [dictInsert, dictLookup, Ne.symm h]
  | cons p rest ih =>
    by_cases hp : p.1 = k
    · simp [dictInsert, dictLookup, hp, Ne.symm h]
    · by_cases hp' : p.1 = k' <;> simp [dictInsert, dictLookup, hp, hp', ih, h]

/-- A key that no entry carries makes `dictInsert` an append. -/
theorem dictInsert_fresh (d : ScrapeResult) (k : String) (v : List ForumPost)
    (h : dictLookup d k = none) : dictInsert d k v = d ++ [(k, v)] := by
  induction d with
  | nil => rfl
  | cons p rest ih =>
    by_cases hp : p.1 = k
    · simp [dictLookup, hp] at h
    · simp [dictLookup, hp] at h
      simp [dictInsert, hp, ih h]

/-- Sleeps: one per visited discussion link, regardless of outcome. -/
theorem visit_sleeps (net : String → FetchOutcome) (links : List String)
    (acc : ScrapeResult) :
    (visitDiscussions net links acc).2 = links.length := by
  induction links generalizing acc with
  | nil => rfl
  | cons w rest ih => simp [visitDiscussions, ih]

/-- What the visit loop binds each key to: a link's posts when it was
visited and non-empty, the prior binding otherwise. -/
theorem visit_lookup (net : String → FetchOutcome) (links : List String)
    (acc : ScrapeResult) (u : String) :
    dictLookup (visitDiscussions net links acc).1 u =
      if u ∈ links ∧ extract_posts_from_discussion net u ≠ [] then
        some (extract_posts_from_discussion net u)
      else dictLookup acc u := by
  induction links generalizing acc with
  | nil => simp [visitDiscussions]
  | cons w rest ih =>
    by_cases hw : (extract_posts_from_discussion net w).isEmpty
    · have hstep : (visitDiscussions net (w :: rest) acc).1
          = (visitDiscussions net rest acc).1 := by
        simp [visitDiscussions, hw]
      rw [hstep, ih]
      by_cases hur : u ∈ rest ∧ extract_posts_from_discussion net u ≠ []
      · rw [if_pos hur, if_pos ⟨List.mem_cons_of_mem _ hur.1, hur.2⟩]
      · rw [if_neg hur]
        by_cases hcond : u ∈ w :: rest ∧ extract_posts_from_discussion net u ≠ []
        · exfalso
          rcases List.mem_cons.mp hcond.1 with h1 | h1
          · exact hcond.2 (by rw [h1]; exact List.isEmpty_iff.mp hw)
          · exact hur ⟨h1, hcond.2⟩
        · rw [if_neg hcond]
    · have hstep : (visitDiscussions net (w :: rest) acc).1
          = (visitDiscussions net rest
              (dictInsert acc w (extract_posts_from_discussion net w))).1 := by
        simp [visitDiscussions, hw]
      rw [hstep, ih]
      by_cases hur : u ∈ rest ∧ extract_posts_from_discussion net u ≠ []
      · rw [if_pos hur, if_pos ⟨List.mem_cons_of_mem _ hur.1, hur.2⟩]
      · rw [if_neg hur]
        by_cases huw : u = w
        · subst huw
          have hne : extract_posts_from_discussion net u ≠ [] := by
            intro hc
            exact hw (List.isEmpty_iff.mpr hc)
          rw [if_pos ⟨List.mem_cons_self _ _, hne⟩]
          exact dictLookup_insert_self _ _ _
        · have hcond : ¬(u ∈ w :: rest ∧ extract_posts_from_discussion net u ≠ []) := by
            intro hcon
            rcases List.mem_cons.mp hcon.1 with h1 | h1
            · exact huw h1
            · exact hur ⟨h1, hcon.2⟩
          rw [if_neg hcond]
          exact dictLookup_insert_ne _ _ _ _ huw

/-- Keys after the visit loop: the prior keys, then the fresh links whose
extraction was non-empty, in link order. -/
theorem visit_keys (net : String → FetchOutcome) (links : List String)
    (acc : ScrapeResult)
    (hnd : links.Nodup) (hfresh : ∀ u ∈ links, dictLookup acc u = none) :
    dictKeys (visitDiscussions net links acc).1
      = dictKeys acc
          ++ links.filter (fun u => !(extract_posts_from_discussion net u).isEmpty) := by
  induction links generalizing acc with
  | nil => simp [visitDiscussions]
  | cons w rest ih =>
    have hwr : w ∉ rest := (List.nodup_cons.mp hnd).1
    have hndr : rest.Nodup := (List.nodup_cons.mp hnd).2
    by_cases hw : (extract_posts_from_discussion net w).isEmpty
    · have hstep : (visitDiscussions net (w :: rest) acc).1
          = (visitDiscussions net rest acc).1 := by
        simp [visitDiscussions, hw]
      rw [hstep, ih acc hndr (fun u hu => hfresh u (List.mem_cons_of_mem _ hu))]
      simp [List.filter_cons, hw]
    · have hstep : (visitDiscussions net (w :: rest) acc).1
          = (visitDiscussions net rest
              (dictInsert acc w (extract_posts_from_discussion net w))).1 := by
        simp [visitDiscussions, hw]
      have hfw : dictLookup acc w = none := hfresh w (List.mem_cons_self _ _)
      have hfresh2 : ∀ u ∈ rest,
          dictLookup (dictInsert acc w (extract_posts_from_discussion net w)) u = none := by
        intro u hu
        rw [dictLookup_insert_ne _ _ _ _ (fun h => hwr (by rw [← h]; exact hu))]
        exact hfresh u (List.mem_cons_of_mem _ hu)
      rw [hstep, ih _ hndr hfresh2, dictInsert_fresh _ _ _ hfw]
      simp [dictKeys, List.filter_cons, hw]

/-- C6: the crawler visits the discovered links in order; it sleeps once
after every visit regardless of outcome; a key is bound in the result
mapping exactly when some visited link produced a non-empty post list (so a
discussion whose fetch fails — for instance by login redirect — leaves no
key); the recorded keys appear in link order after the prior keys; and
after the visits the pagination step proceeds to the next page whatever the
individual visit outcomes were. -/
theorem crawl_records_nonempty_and_continues
    (net : String → FetchOutcome) (links : List String) (acc : ScrapeResult) :
    (visitDiscussions net links acc).2 = links.length
    ∧ (∀ u, dictLookup (visitDiscussions net links acc).1 u =
        if u ∈ links ∧ extract_posts_from_discussion net u ≠ [] then
          some (extract_posts_from_discussion net u)
        else dictLookup acc u)
    ∧ (∀ u status finalUrl doc, net u = .response status finalUrl doc →
        containsLogin finalUrl = true → extract_posts_from_discussion net u = [])
    ∧ (links.Nodup → (∀ u ∈ links, dictLookup acc u = none) →
        dictKeys (visitDiscussions net links acc).1
          = dictKeys acc
              ++ links.filter (fun u => !(extract_posts_from_discussion net u).isEmpty))
    ∧ (∀ (base : String) (fuel page : Nat) (soup : Page),
        get_page_content net (pageUrl base page) = some soup →
        get_discussion_links base soup = .ok links → links ≠ [] →
        scrapeLoop net base (fuel + 1) page acc =
          match scrapeLoop net base fuel (page + 1) (visitDiscussions net links acc).1 with
          | .error e => .error e
          | .ok (d, urls, s) =>
              .ok (d, pageUrl base page :: urls, (visitDiscussions net links acc).2 + s)) := by
  refine ⟨visit_sleeps net links acc, visit_lookup net links acc, ?_, visit_keys net links acc, ?_⟩
  · intro u status finalUrl doc hresp hlog
    have : get_page_content net u = none := by
      by_cases hs : 400 ≤ status ∧ status < 600 <;>
        simp [get_page_content, hresp, hs, hlog]
    simp [extract_posts_from_discussion, this]
  · intro base fuel page soup hfetch hlinks hne
    have hni : links.isEmpty = false := by simpa [List.isEmpty_iff] using hne
    simp [scrapeLoop, hfetch, hlinks, hni]

/-- First discussion URL of the C6 witness scenario. -/
def c6durl1 : String := "https://aulas/mod/forum/discuss.php?d=11"

/-- Second discussion URL of the C6 witness scenario. -/
def c6durl2 : String := "https://aulas/mod/forum/discuss.php?d=12"

/-- Discussion page behind the first link: one complete post. -/
def c6dpage : Page :=
  { discussionAnchors := [],
    postContainers :=
      [⟨some ⟨"hola"⟩, some ⟨some ⟨"T"⟩, some ⟨"Ana"⟩, some ⟨some "2024-05-01T00:00:00"⟩⟩⟩] }

/-- Oracle for the C6 scenario: the first link answers normally, every
other URL is redirected to the login page. -/
def c6net : String → FetchOutcome := fun u =>
  if u = c6durl1 then .response 200 c6durl1 c6dpage
  else .response 200 "https://aulas/login/index.php" ⟨[], []⟩

/-- Witness for C6, the spec's scenario: two links, the second hitting a
login redirect — one sleep per visit, only the first link recorded. -/
theorem crawl_records_nonempty_witness :
    (visitDiscussions c6net [c6durl1, c6durl2] []).2 = 2
    ∧ dictLookup (visitDiscussions c6net [c6durl1, c6durl2] []).1 c6durl2 = none
    ∧ dictLookup (visitDiscussions c6net [c6durl1, c6durl2] []).1 c6durl1
        = some (extract_posts_from_discussion c6net c6durl1) := by
  have h := crawl_records_nonempty_and_continues c6net [c6durl1, c6durl2] []
  refine ⟨by simpa using h.1, ?_, ?_⟩
  · have h2 := h.2.1 c6durl2
    rw [if_neg (by decide)] at h2
    exact h2.trans rfl
  · have h1 := h.2.1 c6durl1
    rw [if_pos ⟨by decide, by decide⟩] at h1
    exact h1

/-- Pagination window: starting at page `p` with `P` link-bearing pages and
then one page with no links, the loop performs exactly the `P + 1` index
fetches `p, p+1, …, p+P` (in that order) and returns, for every sufficient
fuel, the same result. -/
theorem scrapeLoop_window (net : String → FetchOutcome) (base : String) (pages : Nat → Page) :
    ∀ (P p : Nat) (acc : ScrapeResult),
      (∀ k, k ≤ P → get_page_content net (pageUrl base (p + k)) = some (pages (p + k))) →
      (∀ k, k < P → ∃ links, get_discussion_links base (pages (p + k)) = .ok links ∧ links ≠ []) →
      get_discussion_links base (pages (p + P)) = .ok [] →
      ∃ d s, ∀ fuel, P + 1 ≤ fuel →
        scrapeLoop net base fuel p acc =
          .ok (d, (List.range (P + 1)).map (fun k => pageUrl base (p + k)), s) := by
  intro P
  induction P with
  | zero =>
    intro p acc hfetch _ hlast
    refine ⟨acc, 0, ?_⟩
    intro fuel hfuel
    obtain ⟨m, rfl⟩ : ∃ m, fuel = m + 1 := ⟨fuel - 1, by omega⟩
    have hf : get_page_content net (pageUrl base p) = some (pages p) := by
      simpa using hfetch 0 (Nat.le_refl 0)
    have hl : get_discussion_links base (pages p) = Except.ok ([] : List String) := by
      simpa using hlast
    simp [scrapeLoop, hf, hl, List.range_succ]
  | succ P ih =>
    intro p acc hfetch hlinks hlast
    obtain ⟨links, hl0, hlne⟩ := hlinks 0 (Nat.succ_pos P)
    have hf0 : get_page_content net (pageUrl base p) = some (pages p) := by
      simpa using hfetch 0 (by omega)
    have hl0' : get_discussion_links base (pages p) = .ok links := by simpa using hl0
    have hfetch2 : ∀ k, k ≤ P →
        get_page_content net (pageUrl base (p + 1 + k)) = some (pages (p + 1 + k)) := by
      intro k hk
      have h := hfetch (k + 1) (by omega)
      have he : p + (k + 1) = p + 1 + k := by omega
      rw [he] at h
      exact h
    have hlinks2 : ∀ k, k < P →
        ∃ links2, get_discussion_links base (pages (p + 1 + k)) = .ok links2 ∧ links2 ≠ [] := by
      intro k hk
      have h := hlinks (k + 1) (by omega)
      have he : p + (k + 1) = p + 1 + k := by omega
      rw [he] at h
      exact h
    have hlast2 : get_discussion_links base (pages (p + 1 + P)) = .ok [] := by
      have he : p + (P + 1) = p + 1 + P := by omega
      rw [← he]
      exact hlast
    obtain ⟨d, s, hIH⟩ :=
      ih (p + 1) (visitDiscussions net links acc).1 hfetch2 hlinks2 hlast2
    refine ⟨d, (visitDiscussions net links acc).2 + s, ?_⟩
    intro fuel hfuel
    obtain ⟨m, rfl⟩ : ∃ m, fuel = m + 1 := ⟨fuel - 1, by omega⟩
    have hstep := hIH m (by omega)
    have hni : links.isEmpty = false := by simpa [List.isEmpty_iff] using hlne
    have htr : (List.range (P + 1 + 1)).map (fun k => pageUrl base (p + k))
        = pageUrl base p :: (List.range (P + 1)).map (fun k => pageUrl base (p + 1 + k)) := by
      rw [List.range_succ_eq_map, List.map_cons, List.map_map]
      refine congrArg₂ List.cons (by simp) (List.map_congr_left fun k hk => ?_)
      simp only [Function.comp_apply]
      exact congrArg (pageUrl base) (by omega)
    rw [htr]
    simp [scrapeLoop, hf0, hl0', hni, hstep]

/-- C4: for a forum whose index has exactly `P` link-bearing pages followed
by one page with no links, `scrape_forum` terminates — every fuel of at
least `P + 1` yields the same run — and the index URLs fetched are exactly
`pageUrl base 0, …, pageUrl base P`, in order: `P + 1` fetches, the `k`-th
carrying the zero-based page parameter `k`, strictly increasing from 0. -/
theorem scrape_forum_pagination
    (net : String → FetchOutcome) (base : String) (pages : Nat → Page) (P : Nat)
    (hfetch : ∀ k, k ≤ P → get_page_content net (pageUrl base k) = some (pages k))
    (hlinks : ∀ k, k < P →
      ∃ links, get_discussion_links base (pages k) = .ok links ∧ links ≠ [])
    (hlast : get_discussion_links base (pages P) = .ok []) :
    ∀ fuel, P + 1 ≤ fuel →
      scrape_forum net base fuel = scrape_forum net base (P + 1)
      ∧ ∃ d s, scrape_forum net base fuel
          = .ok (d, (List.range (P + 1)).map (pageUrl base), s) := by
  obtain ⟨d, s, h⟩ := scrapeLoop_window net base pages P 0 []
    (fun k hk => by simpa using hfetch k hk)
    (fun k hk => by simpa using hlinks k hk)
    (by simpa using hlast)
  have hmap : (List.range (P + 1)).map (fun k => pageUrl base (0 + k))
      = (List.range (P + 1)).map (pageUrl base) :=
    List.map_congr_left (fun k _ => by rw [Nat.zero_add])
  intro fuel hf
  constructor
  · rw [scrape_forum, scrape_forum, h fuel hf, h (P + 1) (Nat.le_refl _)]
  · exact ⟨d, s, by rw [scrape_forum, h fuel hf, hmap]⟩

/-- Forum base URL of the C4 witness. -/
def c4base : String := "https://aulas/mod/forum/view.php?id=9"

/-- Discussion link found on page 0 of the C4 witness forum. -/
def c4durl : String := "https://aulas/mod/forum/discuss.php?d=21"

/-- Page 0: one discussion link. -/
def c4page0 : Page := { discussionAnchors := [⟨some c4durl, "Topic"⟩], postContainers := [] }

/-- Page 1: no discussion links — the pagination terminator. -/
def c4page1 : Page := { discussionAnchors := [], postContainers := [] }

/-- The parsed index pages of the C4 witness forum, by page number. -/
def c4pages : Nat → Page := fun k => if k = 0 then c4page0 else c4page1

/-- Oracle of the C4 witness: two index pages, everything else fails. -/
def c4net : String → FetchOutcome := fun u =>
  if u = pageUrl c4base 0 then .response 200 u c4page0
  else if u = pageUrl c4base 1 then .response 200 u c4page1
  else .transportError

/-- Witness for C4 with `P = 1`: any fuel at least 2 gives the same run. -/
theorem scrape_forum_pagination_witness :
    scrape_forum c4net c4base 5 = scrape_forum c4net c4base 2 :=
  (scrape_forum_pagination c4net c4base c4pages 1
    (by intro k hk; interval_cases k <;> decide)
    (by intro k hk; interval_cases k; exact ⟨[c4durl], rfl, by decide⟩)
    rfl 5 (by omega)).1

/-! ### Re-reading the exported text (claim C2)

The source only writes the file; the spec's round-trip property quantifies
over re-reading it.  The reader below is modelled from the spec: one block
per discussion — separator, `Discussion URL: `, separator — then per post
the `Title: `, `Author: `, `Date: `, `Content:` labelled fields followed by
the sub-separator, exactly the labels `save_to_file` writes. -/

/-- Read one line: the characters before the first newline, and the rest
after it.  Fails when no newline remains. -/
def readLine : List Char → Option (List Char × List Char)
  | [] => none
  | c :: cs =>
    if c = '\n' then some ([], cs)
    else
      match readLine cs with
      | none => none
      | some (l, r) => some (c :: l, r)

/-- Modelled from the spec: read back one post block of the text format
(the writer is `postBlock`; the source has no reader). -/
def parsePostC (cs : List Char) : Option (ForumPost × List Char) := do
  let cs1 ← dropRun "Title: ".data cs
  let (t, cs2) ← readLine cs1
  let cs3 ← dropRun "Author: ".data cs2
  let (a, cs4) ← readLine cs3
  let cs5 ← dropRun "Date: ".data cs4
  let (d, cs6) ← readLine cs5
  let cs7 ← dropRun "Content:\n".data cs6
  let (c, cs8) ← readLine cs7
  let cs9 ← dropRun "\n".data cs8
  let cs10 ← dropRun sep40.data cs9
  let cs11 ← dropRun "\n\n".data cs10
  pure (⟨String.mk t, String.mk c, String.mk a, String.mk d⟩, cs11)

/-- Modelled from the spec: read back the post blocks of one discussion,
stopping at the first non-post-shaped input. -/
def parsePostsC : Nat → List Char → Option (List ForumPost × List Char)
  | 0, _ => none
  | fuel + 1, cs =>
    match parsePostC cs with
    | none => some ([], cs)
    | some (p, cs2) =>
      match parsePostsC fuel cs2 with
      | none => none
      | some (ps, rest) => some (p :: ps, rest)

/-- Modelled from the spec: read back the discussion blocks of the exported
file. -/
def parseDiscussionsC : Nat → List Char → Option ScrapeResult
  | 0, _ => none
  | fuel + 1, cs =>
    if cs.isEmpty then some []
    else do
      let cs1 ← dropRun "\n".data cs
      let cs2 ← dropRun sep80.data cs1
      let cs3 ← dropRun "\n".data cs2
      let cs4 ← dropRun "Discussion URL: ".data cs3
      let (u, cs5) ← readLine cs4
      let cs6 ← dropRun sep80.data cs5
      let cs7 ← dropRun "\n\n".data cs6
      let (ps, cs8) ← parsePostsC (fuel + 1) cs7
      let ds ← parseDiscussionsC fuel cs8
      pure ((String.mk u, ps) :: ds)

/-- Modelled from the spec: re-read a whole exported file. -/
def parseExport (s : String) : Option ScrapeResult :=
  parseDiscussionsC (s.data.length + 1) s.data

/-- A field string with no newline character. -/
def nlFree (s : String) : Prop := '\n' ∉ s.data

/-- All four fields newline-free. -/
def wfPost (p : ForumPost) : Prop :=
  nlFree p.title ∧ nlFree p.author ∧ nlFree p.date ∧ nlFree p.content

/-- Every URL and every post field newline-free. -/
def wfResult (d : ScrapeResult) : Prop :=
  ∀ x ∈ d, nlFree x.1 ∧ ∀ p ∈ x.2, wfPost p

/-- Rebuilding a string from its characters is the identity. -/
theorem mk_data (s : String) : String.mk s.data = s := rfl

/-- Dropping a pattern from in front of itself succeeds. -/
theorem dropRun_append (pat r : List Char) : dropRun pat (pat ++ r) = some r := by
  induction pat with
  | nil => rfl
  | cons p ps ih => simp [dropRun, ih]

/-- A newline-free line followed by a newline reads back exactly. -/
theorem readLine_append (l : List Char) (h : '\n' ∉ l) (r : List Char) :
    readLine (l ++ '\n' :: r) = some (l, r) := by
  induction l with
  | nil => simp [readLine]
  | cons c cs ih =>
    have hc : c ≠ '\n' := fun hcn => h (hcn ▸ List.mem_cons_self _ _)
    have hcs : '\n' ∉ cs := fun hm => h (List.mem_cons_of_mem _ hm)
    simp [readLine, hc, ih hcs]

/-- One written post block reads back as the very post. -/
theorem parsePostC_block (p : ForumPost) (rest : List Char) (h : wfPost p) :
    parsePostC ((postBlock p).data ++ rest) = some (p, rest) := by
  obtain ⟨t, c, a, d⟩ := p
  have ht : '\n' ∉ t.data := h.1
  have ha : '\n' ∉ a.data := h.2.1
  have hd : '\n' ∉ d.data := h.2.2.1
  have hc : '\n' ∉ c.data := h.2.2.2
  simp [parsePostC, postBlock, String.data_append, List.append_assoc, dropRun,
    dropRun_append, readLine_append _ ht, readLine_append _ ha,
    readLine_append _ hd, readLine_append _ hc, mk_data]

/-- No post block starts at the empty input. -/
theorem parsePostC_nil : parsePostC [] = none := rfl

/-- No post block starts at a newline (a discussion boundary). -/
theorem parsePostC_nl (cs : List Char) : parsePostC ('\n' :: cs) = none := rfl

/-- No post block starts at the beginning of an exported tail. -/
theorem parsePostC_save (ds : ScrapeResult) :
    parsePostC ((save_to_file ds).data) = none := by
  cases ds with
  | nil => rfl
  | cons x rest =>
    obtain ⟨u, ps⟩ := x
    rfl

/-- The written post blocks of one discussion read back as the very list,
for any trailing input that does not look like a post. -/
theorem parsePostsC_blocks (ps : List ForumPost) :
    ∀ (fuel : Nat) (rest : List Char), (∀ p ∈ ps, wfPost p) → ps.length < fuel →
      parsePostC rest = none →
      parsePostsC fuel ((postsText ps).data ++ rest) = some (ps, rest) := by
  induction ps with
  | nil =>
    intro fuel rest _ hf hr
    obtain ⟨m, rfl⟩ : ∃ m, fuel = m + 1 := ⟨fuel - 1, by omega⟩
    show parsePostsC (m + 1) (("" : String).data ++ rest) = some ([], rest)
    simp [parsePostsC, hr]
  | cons p ps ih =>
    intro fuel rest hwf hf hr
    obtain ⟨m, rfl⟩ : ∃ m, fuel = m + 1 := ⟨fuel - 1, by omega⟩
    have hdata : (postsText (p :: ps)).data ++ rest
        = (postBlock p).data ++ ((postsText ps).data ++ rest) := by
      simp [postsText, String.data_append, List.append_assoc]
    have h1 := parsePostC_block p ((postsText ps).data ++ rest)
      (hwf p (List.mem_cons_self _ _))
    have h2 := ih m rest (fun q hq => hwf q (List.mem_cons_of_mem _ hq))
      (by simp at hf; omega) hr
    rw [hdata]
    simp [parsePostsC, h1, h2]

/-- Size measure driving the reader's fuel: one unit per discussion plus
one per post. -/
def sizeR (ds : ScrapeResult) : Nat :=
  ds.length + (ds.map (fun x => x.2.length)).sum

/-- Character count of an appended string. -/
theorem data_len_append (x y : String) :
    (x ++ y).data.length = x.data.length + y.data.length := by
  rw [String.data_append, List.length_append]

/-- Every post block is at least one character long. -/
theorem postsText_len (ps : List ForumPost) :
    ps.length ≤ (postsText ps).data.length := by
  induction ps with
  | nil => simp [postsText]
  | cons p ps ih =>
    have hlen : (postsText (p :: ps)).data.length
        = (postBlock p).data.length + (postsText ps).data.length :=
      data_len_append (postBlock p) (postsText ps)
    have h1 : 1 ≤ (postBlock p).data.length := by
      show 1 ≤ (("Title: " ++ p.title ++ "\n" ++ "Author: " ++ p.author ++ "\n" ++
        "Date: " ++ p.date ++ "\n" ++ "Content:\n" ++ p.content ++ "\n" ++
        "\n" ++ sep40 ++ "\n\n") : String).data.length
      rw [data_len_append]
      have h2 : ("\n\n" : String).data.length = 2 := rfl
      omega
    simp only [List.length_cons, hlen]
    omega

/-- The exported text is at least as long as the size measure. -/
theorem sizeR_le_len (ds : ScrapeResult) :
    sizeR ds ≤ (save_to_file ds).data.length := by
  induction ds with
  | nil => simp [sizeR, save_to_file]
  | cons x rest ih =>
    obtain ⟨u, ps⟩ := x
    have hp := postsText_len ps
    have h1 : (save_to_file ((u, ps) :: rest)).data.length
        = (discussionBlock u ps).data.length + (save_to_file rest).data.length :=
      data_len_append (discussionBlock u ps) (save_to_file rest)
    have hA : 1 + (postsText ps).data.length ≤ (discussionBlock u ps).data.length := by
      show 1 + _ ≤ (("\n" ++ sep80 ++ "\n" ++ "Discussion URL: " ++ u ++ "\n" ++
        sep80 ++ "\n\n" ++ postsText ps) : String).data.length
      rw [data_len_append, data_len_append]
      have h2 : ("\n\n" : String).data.length = 2 := rfl
      omega
    have hsz : sizeR ((u, ps) :: rest) = 1 + ps.length + sizeR rest := by
      simp [sizeR]
      omega
    rw [hsz, h1]
    omega

set_option maxRecDepth 4000 in
/-- The written discussion blocks read back as the very mapping. -/
theorem parseDiscussionsC_blocks (ds : ScrapeResult) :
    ∀ fuel, wfResult ds → sizeR ds < fuel →
      parseDiscussionsC fuel ((save_to_file ds).data) = some ds := by
  induction ds with
  | nil =>
    intro fuel _ hf
    obtain ⟨m, rfl⟩ : ∃ m, fuel = m + 1 := ⟨fuel - 1, by omega⟩
    show parseDiscussionsC (m + 1) (("" : String).data) = some []
    simp [parseDiscussionsC]
  | cons x rest ih =>
    intro fuel hwf hf
    obtain ⟨u, ps⟩ := x
    obtain ⟨m, rfl⟩ : ∃ m, fuel = m + 1 := ⟨fuel - 1, by omega⟩
    have hu : nlFree u := (hwf _ (List.mem_cons_self _ _)).1
    have hps : ∀ p ∈ ps, wfPost p := (hwf _ (List.mem_cons_self _ _)).2
    have hwfr : wfResult rest := fun y hy => hwf y (List.mem_cons_of_mem _ hy)
    have hsz : sizeR ((u, ps) :: rest) = 1 + ps.length + sizeR rest := by
      simp [sizeR]
      omega
    have hu2 : '\n' ∉ u.data := hu
    have hposts := parsePostsC_blocks ps (m + 1) ((save_to_file rest).data)
      hps (by rw [hsz] at hf; omega) (parsePostC_save rest)
    have hrest := ih m hwfr (by rw [hsz] at hf; omega)
    rw [show save_to_file ((u, ps) :: rest) = discussionBlock u ps ++ save_to_file rest
      from rfl]
    simp [parseDiscussionsC, discussionBlock, String.data_append, List.append_assoc,
      dropRun, dropRun_append, readLine_append _ hu2, hposts, hrest, mk_data]

/-- Post whose content embeds a sub-separator and a second labelled post
block, making two different results export to the same text. -/
def c2evil : ForumPost :=
  { title := "t",
    content := "c\n\n" ++ sep40 ++ "\n\nTitle: t2\nAuthor: a2\nDate: d2\nContent:\nc2",
    author := "a",
    date := "d" }

/-- One discussion with the single crafted post. -/
def c2A : ScrapeResult := [("https://aulas/mod/forum/discuss.php?d=1", [c2evil])]

/-- The same discussion with two ordinary posts. -/
def c2B : ScrapeResult :=
  [("https://aulas/mod/forum/discuss.php?d=1",
    [⟨"t", "c", "a", "d"⟩, ⟨"t2", "c2", "a2", "d2"⟩])]

/-- Counterexample to C2 as stated: two `ScrapeResult`s with the same URL
but different posts (one post versus two) whose exported files are the
identical text, so no reader of the written file can reproduce the posts of
both — the round trip fails for unrestricted field strings. -/
theorem save_to_file_not_injective :
    save_to_file c2A = save_to_file c2B
    ∧ c2A ≠ c2B
    ∧ (c2A.map fun x => x.2.length) ≠ (c2B.map fun x => x.2.length) := by
  refine ⟨rfl, by decide, by decide⟩

/-- C2 (amended): for every `ScrapeResult` whose URLs and post fields
contain no newline character, exporting with `save_to_file` and re-reading
the written text reproduces, per discussion, the same URL and per post the
same title, author, date and content, in the same order, under the exact
field-label prefixes. -/
theorem save_round_trip (ds : ScrapeResult) (h : wfResult ds) :
    parseExport (save_to_file ds) = some ds := by
  unfold parseExport
  exact parseDiscussionsC_blocks ds _ h
    (by have := sizeR_le_len ds; omega)

/-- Two newline-free posts in one discussion. -/
def c2good : ScrapeResult :=
  [("https://aulas/mod/forum/discuss.php?d=2",
    [⟨"Hello", "first post", "Ana", "2024-01-01T00:00:00"⟩,
     ⟨"Re: Hello", "second post", "Bob", "2024-01-02T00:00:00"⟩])]

/-- Witness for the amended C2 at a concrete result. -/
theorem save_round_trip_witness :
    parseExport (save_to_file c2good) = some c2good :=
  save_round_trip c2good (by unfold wfResult wfPost nlFree; decide)

end ForumScraper
